import Mathlib

/-!
# Verification of the Markdown Image Localization Pipeline

A shallow embedding of `jira_to_markdown/image_downloader.py` (class
`ImageDownloader`): reference scanning, origin classification, filename
allocation, cached downloads, atomic writes and per-document result
accounting, together with proofs of the specified properties.

Modelling conventions:
* Python strings are `List Char` (abbreviated `Str`); Python string literals
  appear as `"...".data`.
* The filesystem holding downloaded assets is the list of existing file
  path strings (`List Str`); the document store is an association list from
  path to content.
* Effectful collaborators are oracles passed in an `Env`:
  `net` models `requests.get` (the response obtained for a URL, given the
  auth credentials attached), `hash8` models
  `hashlib.md5(url.encode()).hexdigest()[:8]`, and `writeFails` models the
  OS failing the document write inside `_write_atomic`.
* `tempfile.mkstemp` is modelled by a deterministic temp-file name placed in
  the destination directory; freshness (which `mkstemp` guarantees) is a
  hypothesis where a theorem needs it.
* Invocations of the downloader (`_download_image`) and of the name
  allocator (`_generate_filename`) are recorded as trace events so that
  claims about "X is not invoked" are statable.
-/

set_option linter.unusedVariables false

abbrev Str := List Char

/-! ## Data model (`ImageInfo`, `DownloadResult`, per-file results) -/

/-- `ImageInfo` NamedTuple: one image reference found in markdown. -/
structure ImageInfo where
  alt_text : Str
  url : Str
  full_match : Str
  is_jira : Bool
deriving DecidableEq, Repr

/-- `DownloadResult` NamedTuple: result of one download attempt. -/
structure DownloadResult where
  success : Bool
  local_path : Option Str
  error : Option Str
deriving DecidableEq, Repr

/-- The per-file result dictionary built by `process_file`. -/
structure ProcessingResult where
  ticket_key : Str
  images_found : Nat
  images_downloaded : Nat
  images_skipped : Nat
  images_failed : Nat
  errors : List Str
deriving DecidableEq, Repr

/-- Configuration held by an `ImageDownloader` instance (`__init__` args).
Directories are kept as path components; `jira_username`/`jira_api_token`
are `none` for Python `None`. -/
structure Downloader where
  output_dir : List Str
  images_dir : List Str
  jira_url : Str
  jira_username : Option Str
  jira_api_token : Option Str
  verify_ssl : Bool

/-- What `requests.get` can come back with, as far as this code observes it:
an HTTP error status (raised by `raise_for_status`), a connection error, a
timeout, or a streamed body given by its chunk sizes (`iter_content`). -/
inductive HttpResponse where
  | httpError (status : Nat)
  | connectionError
  | timeout
  | ok (chunks : List Nat)
deriving DecidableEq, Repr

/-- Trace of component invocations made while processing one reference:
`_generate_filename` (the name allocator) and `_download_image` (the asset
downloader). -/
inductive PipeEvent where
  | allocCall (url : Str)
  | downloadCall (url : Str)
deriving DecidableEq, Repr

/-- The effectful collaborators, as oracles. -/
structure Env where
  net : Option (Str × Str) → Str → HttpResponse
  hash8 : Str → Str
  writeFails : Str → Bool

/-- A markdown file's location: directory components and file name. -/
structure DocPath where
  parent : List Str
  name : Str
deriving DecidableEq, Repr

/-! ## Small string helpers shared by several methods -/

/-- Decimal digits of a natural number, little machinery: fuel-based so the
kernel can evaluate it. `natDigitsAux n n` is the digit string of `n`
(empty for 0). -/
def natDigitsAux : Nat → Nat → Str
  | 0, _ => []
  | _ + 1, 0 => []
  | fuel + 1, n + 1 => natDigitsAux fuel ((n + 1) / 10) ++ [Nat.digitChar ((n + 1) % 10)]

/-- Python `str(n)` for a natural number. -/
def natDigits (n : Nat) : Str :=
  if n = 0 then "0".data else natDigitsAux n n

/-- Python `a.startswith(('http://', 'https://'))` (line 119/127): the
reference is remote. -/
def isRemote (u : Str) : Bool :=
  "http://".data.isPrefixOf u || "https://".data.isPrefixOf u

/-- Index of the first occurrence of `pat` inside `l` (the occurrence that
Python `str.replace(old, new, 1)` and the `in` operator act on). -/
def firstOccIdx (pat : Str) : Str → Option Nat
  | [] => if pat.isEmpty then some 0 else none
  | c :: r => if pat.isPrefixOf (c :: r) then some 0 else (firstOccIdx pat r).map (· + 1)

/-- Python `sub in s`. -/
def containsSub (pat s : Str) : Bool :=
  (firstOccIdx pat s).isSome

/-- Python `s.replace(old, new, 1)`: replace the first occurrence only. -/
def replaceFirst (s pat new : Str) : Str :=
  match firstOccIdx pat s with
  | none => s
  | some i => s.take i ++ new ++ s.drop (i + pat.length)

/-! ## URL parsing (`urllib.parse.urlparse`: the parts this code reads) -/

/-- A character allowed in a URL scheme after the initial letter. -/
def isSchemeTailChar (c : Char) : Bool :=
  c.isAlpha || c.isDigit || c == '+' || c == '-' || c == '.'

/-- What follows the scheme: `urlsplit` strips `scheme:` when the text up to
the first `:` is a valid scheme (nonempty, letter-initial); otherwise the
URL is left whole. -/
def splitScheme (u : Str) : Str :=
  let pre := u.takeWhile (fun c => c != ':')
  if pre.length < u.length && !pre.isEmpty
      && (pre.headD 'a').isAlpha && pre.all isSchemeTailChar then
    u.drop (pre.length + 1)
  else u

/-- `urlparse(u).netloc`: present only after a `//`, up to `/`, `?` or `#`. -/
def urlNetloc (u : Str) : Str :=
  let r := splitScheme u
  if "//".data.isPrefixOf r then
    (r.drop 2).takeWhile (fun c => c != '/' && c != '?' && c != '#')
  else []

/-- `urlparse(u).path`: what follows the netloc (if any), up to `?` or `#`. -/
def urlPath (u : Str) : Str :=
  let r := splitScheme u
  let r2 := if "//".data.isPrefixOf r then
      (r.drop 2).dropWhile (fun c => c != '/' && c != '?' && c != '#')
    else r
  r2.takeWhile (fun c => c != '?' && c != '#')

/-! ## Path helpers (`pathlib` / `os.path`: the parts this code reads) -/

/-- Join path components with `/` (how the `Path.__truediv__` results this
code builds print as strings). -/
def joinPath : List Str → Str
  | [] => []
  | [a] => a
  | a :: b :: r => a ++ '/' :: joinPath (b :: r)

/-- `os.path.splitext`: split at the last dot, provided a non-dot character
precedes it (so `.bashrc` keeps its leading dot in the root). -/
def splitext (p : Str) : Str × Str :=
  let tail := p.reverse.takeWhile (fun c => c != '.')
  if tail.length = p.length then (p, [])
  else
    let i := p.length - tail.length - 1
    if (p.take i).any (fun c => c != '.') then (p.take i, p.drop i) else (p, [])

/-- `Path(s).name`: the last meaningful component (empty and `.` components
are normalized away by `pathlib`). -/
def pathName (p : Str) : Str :=
  ((p.splitOn '/').filter (fun c => !c.isEmpty && c ≠ ".".data)).getLast?.getD []

/-- `Path(s).stem`: the name with its extension removed. -/
def stemOf (name : Str) : Str :=
  (splitext name).1

/-- `Path(s).suffix` of a bare or slashed name: extension of the part after
the last `/`. -/
def suffixOf (f : Str) : Str :=
  (splitext ((f.splitOn '/').getLast?.getD [])).2

/-- `os.path.relpath` on already-relative normalized component lists: strip
the common prefix, then climb with `..`. -/
def relpathComps : List Str → List Str → List Str
  | a :: as, b :: bs =>
    if a = b then relpathComps as bs
    else List.replicate (b :: bs).length "..".data ++ (a :: as)
  | as, bs => List.replicate bs.length "..".data ++ as

/-- `_get_relative_path` (lines 321-326): relative path from the markdown
file's directory to the asset file, as a string. -/
def relpathStr (fromDir : List Str) (toFile : Str) : Str :=
  let r := relpathComps (toFile.splitOn '/') fromDir
  if r.isEmpty then ".".data else joinPath r

/-! ## OriginClassifier (`_is_jira_url`, lines 187-195) -/

/-- `self.jira_domain` (line 62): `urlparse(jira_url).netloc if jira_url else ''`. -/
def jiraDomain (d : Downloader) : Str :=
  if d.jira_url.isEmpty then [] else urlNetloc d.jira_url

/-- `_is_jira_url`: with no configured domain nothing matches; otherwise the
URL matches when its netloc equals the tracker's, or it textually contains
both `/rest/api/` and `/attachment/`. -/
def isJiraUrl (d : Downloader) (url : Str) : Bool :=
  if (jiraDomain d).isEmpty then false
  else
    urlNetloc url = jiraDomain d
      || (containsSub "/rest/api/".data url && containsSub "/attachment/".data url)

/-! ## NameAllocator (`_generate_filename` and helpers, lines 197-253) -/

/-- `IMAGE_EXTENSIONS` (line 36). -/
def IMAGE_EXTENSIONS : List Str :=
  [".png".data, ".jpg".data, ".jpeg".data, ".gif".data, ".svg".data,
   ".webp".data, ".bmp".data, ".ico".data]

/-- `_has_image_extension` (lines 239-242). -/
def hasImageExtension (filename : Str) : Bool :=
  ((suffixOf filename).map Char.toLower) ∈ IMAGE_EXTENSIONS

/-- A character `_sanitize_filename` replaces with `_`. -/
def isIllegalChar (c : Char) : Bool :=
  c ∈ ['<', '>', ':', '"', '/', '\\', '|', '?', '*']

/-- `filename.strip('. ')`. -/
def stripDotsSpaces (f : Str) : Str :=
  ((f.dropWhile (fun c => c == '.' || c == ' ')).reverse.dropWhile
    (fun c => c == '.' || c == ' ')).reverse

/-- The truncation `name[:200 - len(ext)] + ext`, with Python's negative
slice semantics when the extension alone exceeds the bound. -/
def truncName (name ext : Str) : Str :=
  let cut := if ext.length ≤ 200 then 200 - ext.length
    else name.length - (ext.length - 200)
  name.take cut ++ ext

/-- `_sanitize_filename` (lines 244-253). -/
def sanitizeFilename (filename : Str) : Str :=
  let f := filename.map (fun c => if isIllegalChar c then '_' else c)
  let f := stripDotsSpaces f
  let f := if 200 < f.length then truncName (splitext f).1 (splitext f).2 else f
  if f.isEmpty then "image.png".data else f

/-- `_extract_ticket_key` (lines 197-209): the leading `[A-Z]+-\d+` token of
the filename stem, else the whole stem. -/
def extractTicketKey (stem : Str) : Str :=
  let letters := stem.takeWhile (fun c => 'A' ≤ c && c ≤ 'Z')
  if letters.isEmpty then stem
  else
    match stem.drop letters.length with
    | '-' :: r =>
      let digits := r.takeWhile Char.isDigit
      if digits.isEmpty then stem else letters ++ '-' :: digits
    | _ => stem

/-- The `counter`-th candidate of the collision loop (lines 231-235):
`final_name` itself, then `{base}-{counter}{ext}`. -/
def collideName (base ext : Str) : Nat → Str
  | 0 => base ++ ext
  | k + 1 => base ++ '-' :: natDigits (k + 1) ++ ext

/-- The `while (self.images_dir / final_name).exists()` loop, with fuel: the
fuel `fs.length + 1` used below provably suffices (`searchName_spec`), so the
out-of-fuel branch is never taken. -/
def searchName (imagesDir : List Str) (fs : List Str) (base ext : Str) : Nat → Nat → Str
  | k, 0 => collideName base ext k
  | k, fuel + 1 =>
    let cand := collideName base ext k
    if joinPath (imagesDir ++ [cand]) ∈ fs then
      searchName imagesDir fs base ext (k + 1) fuel
    else cand

/-- Lines 217-228 of `_generate_filename`: the sanitized base name proposed
for a URL — from the URL path if it carries an image extension, else from
the alt text, else `image-<hash8>.png`. `hash8` is the model of
`hashlib.md5(url.encode()).hexdigest()[:8]`. -/
def proposedName (hash8 : Str → Str) (url altText : Str) : Str :=
  let path := urlPath url
  let originalName := if path.isEmpty then [] else pathName path
  let originalName :=
    if originalName.isEmpty || !hasImageExtension originalName then
      if !altText.isEmpty && hasImageExtension altText then altText
      else "image-".data ++ hash8 url ++ ".png".data
    else originalName
  sanitizeFilename originalName

/-- `_generate_filename` (lines 211-237): prefix the proposed name with the
ticket key, then run the collision loop against the files existing on disk
(`fs`). -/
def generateFilename (d : Downloader) (hash8 : Str → Str) (fs : List Str)
    (ticketKey url altText : Str) : Str :=
  let finalName := ticketKey ++ '-' :: proposedName hash8 url altText
  searchName d.images_dir fs (splitext finalName).1 (splitext finalName).2 0 (fs.length + 1)

/-! ## AssetDownloader (`_download_image`, lines 255-319) -/

/-- `MAX_IMAGE_SIZE` (line 37): 50 MiB. -/
def MAX_IMAGE_SIZE : Nat := 50 * 1024 * 1024

/-- The credentials `_download_image` attaches (lines 268-272): basic auth
with the tracker username and API token exactly when `is_jira` and both are
truthy (Python: non-`None` and nonempty). -/
def optTruthy : Option Str → Bool
  | none => false
  | some s => !s.isEmpty

/-- The `auth` argument of `requests.get` in `_download_image`. -/
def requestAuth (d : Downloader) (is_jira : Bool) : Option (Str × Str) :=
  if is_jira && optTruthy d.jira_username && optTruthy d.jira_api_token then
    some (d.jira_username.getD [], d.jira_api_token.getD [])
  else none

/-- The streaming loop (lines 293-299): accumulate chunk lengths, abort once
the running total exceeds the cap. `true` = the body fit under the cap. -/
def streamOk (limit : Nat) : Nat → List Nat → Bool
  | _, [] => true
  | acc, c :: rest => if limit < acc + c then false else streamOk limit (acc + c) rest

/-- The oversize exception's message (line 298). -/
def oversizeMsg : Str :=
  "Image exceeds maximum size of ".data ++ natDigits MAX_IMAGE_SIZE ++ " bytes".data

/-- Deterministic model of the `tempfile.mkstemp` name
(`dir=local_path.parent, prefix='.{name}.', suffix='.tmp'`). -/
def tempPathFor (dir : List Str) (name : Str) : Str :=
  joinPath (dir ++ ['.' :: name ++ ".tmp".data])

/-- `_download_image`: returns the `DownloadResult` and the asset directory
contents afterwards. A successful stream writes the temp file, then
`os.replace`s it onto `local_path`; any failure (`raise_for_status`,
connection, timeout, oversize) unlinks the temp file and leaves the
destination untouched. -/
def downloadImage (d : Downloader) (env : Env) (fs : List Str)
    (url localPath tmpPath : Str) (is_jira : Bool) : DownloadResult × List Str :=
  match env.net (requestAuth d is_jira) url with
  | .httpError code =>
    (⟨false, none, some ("HTTP ".data ++ natDigits code)⟩, fs)
  | .connectionError => (⟨false, none, some "Connection failed".data⟩, fs)
  | .timeout => (⟨false, none, some "Request timed out".data⟩, fs)
  | .ok chunks =>
    let fs1 := tmpPath :: fs
    if streamOk MAX_IMAGE_SIZE 0 chunks then
      (⟨true, some localPath, none⟩, localPath :: fs1.erase tmpPath)
    else
      (⟨false, none, some oversizeMsg⟩, fs1.erase tmpPath)

/-! ## ReferenceScanner (`IMAGE_PATTERN` + `_find_images`, lines 35, 168-185) -/

/-- The exact substring the regex `!\[([^\]]*)\]\(([^)]+)\)` matches for a
given alt text and URL. -/
def fmChars (alt url : Str) : Str :=
  '!' :: '[' :: (alt ++ ']' :: '(' :: (url ++ [')']))

/-- Try `IMAGE_PATTERN` at the head of `l`: `![`, greedy `[^\]]*` for the
alt, `](`, greedy `[^)]+` (nonempty) for the URL, `)`. Returns the captures
and the text after the match. -/
def matchImageAt (l : Str) : Option (Str × Str × Str) :=
  match l with
  | c1 :: c2 :: r =>
    if c1 = '!' ∧ c2 = '[' then
      let alt := r.takeWhile (fun c => c != ']')
      match r.dropWhile (fun c => c != ']') with
      | d1 :: d2 :: r2 =>
        if d1 = ']' ∧ d2 = '(' then
          let url := r2.takeWhile (fun c => c != ')')
          match r2.dropWhile (fun c => c != ')') with
          | e1 :: t => if e1 = ')' ∧ ¬url.isEmpty then some (alt, url, t) else none
          | [] => none
        else none
      | _ => none
    else none
  | _ => none

/-- `finditer`: scan left to right, resuming after each match. Fuel-based
(`scanAux fuel` agrees with the scan whenever `l.length ≤ fuel`); the
position of each match is reported alongside its captures. -/
def scanAux : Nat → Str → Nat → List (Nat × Str × Str)
  | 0, _, _ => []
  | _ + 1, [], _ => []
  | fuel + 1, c :: r, pos =>
    match matchImageAt (c :: r) with
    | some (alt, url, t) =>
      (pos, alt, url) :: scanAux fuel t (pos + (fmChars alt url).length)
    | none => scanAux fuel r (pos + 1)

/-- All matches of `IMAGE_PATTERN` in scan order, with positions. -/
def scanImages (l : Str) : List (Nat × Str × Str) :=
  scanAux l.length l 0

/-- `_find_images` (lines 168-185): build an `ImageInfo` per match,
classifying each URL. -/
def findImages (d : Downloader) (content : Str) : List ImageInfo :=
  (scanImages content).map (fun m =>
    ⟨m.2.1, m.2.2, fmChars m.2.1 m.2.2, isJiraUrl d m.2.2⟩)

/-! ## DownloadCache, DocumentRewriter and the per-file pipeline
(`process_file`, lines 89-166; `_write_atomic`, lines 332-349) -/

/-- `self._downloaded_files` lookup (`img.url in self._downloaded_files`). -/
def lookupCache : List (Str × Str) → Str → Option Str
  | [], _ => none
  | (k, v) :: r, u => if k = u then some v else lookupCache r u

/-- The mutable state of the `for img in images` loop in `process_file`,
plus the invocation trace. -/
structure LoopState where
  updated : Str
  downloaded : Nat
  skipped : Nat
  failed : Nat
  errors : List Str
  cache : List (Str × Str)
  fs : List Str
  trace : List PipeEvent
deriving DecidableEq, Repr

/-- One iteration of the loop (lines 126-160): skip non-remote references;
otherwise allocate a name (line 131 — before the cache is consulted), then
either reuse the cached path or download, rewriting the first occurrence of
the reference's exact matched markup on success. -/
def stepImage (d : Downloader) (env : Env) (parent : List Str) (ticketKey : Str)
    (st : LoopState) (img : ImageInfo) : LoopState :=
  if !isRemote img.url then { st with skipped := st.skipped + 1 }
  else
    let localFilename := generateFilename d env.hash8 st.fs ticketKey img.url img.alt_text
    let localPath := joinPath (d.images_dir ++ [localFilename])
    let st1 := { st with trace := st.trace ++ [PipeEvent.allocCall img.url] }
    match lookupCache st1.cache img.url with
    | some existingPath =>
      { st1 with
        updated := replaceFirst st1.updated img.full_match
          (fmChars img.alt_text (relpathStr parent existingPath)),
        downloaded := st1.downloaded + 1 }
    | none =>
      let st2 := { st1 with trace := st1.trace ++ [PipeEvent.downloadCall img.url] }
      let dl := downloadImage d env st2.fs img.url localPath
        (tempPathFor d.images_dir localFilename) img.is_jira
      if dl.1.success then
        { st2 with
          updated := replaceFirst st2.updated img.full_match
            (fmChars img.alt_text (relpathStr parent localPath)),
          downloaded := st2.downloaded + 1,
          cache := st2.cache ++ [(img.url, localPath)],
          fs := dl.2 }
      else
        { st2 with
          failed := st2.failed + 1,
          errors := st2.errors ++ [img.url ++ ": ".data ++ dl.1.error.getD []],
          fs := dl.2 }

/-- Model of the `mkstemp` name used by `_write_atomic` for a document. -/
def docTempFor (p : Str) : Str :=
  '.' :: p ++ ".tmp".data

/-- `_write_atomic` (lines 332-349) on the document store: write the content
to a temp entry, then `os.replace` it onto the path; if the OS write fails
the temp entry is unlinked and the exception propagates (`raise e`). -/
def writeAtomicDoc (env : Env) (docs : List (Str × Str)) (p content : Str) :
    Except Str (List (Str × Str)) :=
  let tmp := docTempFor p
  let docs1 := (tmp, content) :: docs
  if env.writeFails p then
    -- the temp entry is unlinked, then the exception is re-raised
    Except.error ("write failed: ".data ++ p)
  else
    Except.ok ((p, content) :: docs1.eraseP (fun e => e.1 == tmp))

/-- Everything `process_file` leaves behind: the result dictionary, the
final document text, whether the file was rewritten, and the cache, asset
directory, document store and invocation trace afterwards. -/
structure PFOutcome where
  result : ProcessingResult
  content : Str
  wrote : Bool
  cache : List (Str × Str)
  fs : List Str
  docs : List (Str × Str)
  trace : List PipeEvent
deriving DecidableEq, Repr

/-- `process_file` (lines 89-166). `readRes` is the outcome of
`filepath.read_text` (`.error` = the caught read exception). The only way
this raises is `_write_atomic` re-raising an OS write failure. -/
def processFile (d : Downloader) (env : Env) (fp : DocPath)
    (readRes : Except Str Str) (cache0 : List (Str × Str)) (fs0 : List Str)
    (docs0 : List (Str × Str)) : Except Str PFOutcome :=
  let tk := extractTicketKey (stemOf fp.name)
  match readRes with
  | .error e =>
    Except.ok ⟨⟨tk, 0, 0, 0, 0, ["Failed to read file: ".data ++ e]⟩,
      [], false, cache0, fs0, docs0, []⟩
  | .ok content =>
    let images := findImages d content
    let found := (images.filter (fun i => isRemote i.url)).length
    if images.isEmpty then
      Except.ok ⟨⟨tk, found, 0, 0, 0, []⟩, content, false, cache0, fs0, docs0, []⟩
    else
      let st := images.foldl (stepImage d env fp.parent tk)
        ⟨content, 0, 0, 0, [], cache0, fs0, []⟩
      let result : ProcessingResult := ⟨tk, found, st.downloaded, st.skipped, st.failed, st.errors⟩
      if st.updated ≠ content then
        match writeAtomicDoc env docs0 (joinPath (fp.parent ++ [fp.name])) st.updated with
        | .error e => Except.error e
        | .ok docs1 => Except.ok ⟨result, st.updated, true, st.cache, st.fs, docs1, st.trace⟩
      else
        Except.ok ⟨result, st.updated, false, st.cache, st.fs, docs0, st.trace⟩

/-- `process_directory` (lines 69-87): run `process_file` over every
markdown file in order, collecting `filename → result`. `files` pairs each
file with the outcome of reading it; cache, asset directory and document
store thread through. An uncaught exception (a document write failure)
aborts the whole run. -/
def processDirectory (d : Downloader) (env : Env) :
    List (DocPath × Except Str Str) → List (Str × Str) → List Str →
    List (Str × Str) → Except Str (List (Str × ProcessingResult))
  | [], _, _, _ => Except.ok []
  | (fp, rr) :: rest, cache, fs, docs =>
    match processFile d env fp rr cache fs docs with
    | .error e => Except.error e
    | .ok out =>
      match processDirectory d env rest out.cache out.fs out.docs with
      | .error e => Except.error e
      | .ok results => Except.ok ((fp.name, out.result) :: results)

/-- The final loop state `process_file` computes for a document it read as
`content` (the `foldl` inside `processFile`, named for reuse in theorem
statements). -/
def loopOut (d : Downloader) (env : Env) (fp : DocPath) (content : Str)
    (cache0 : List (Str × Str)) (fs0 : List Str) : LoopState :=
  (findImages d content).foldl
    (stepImage d env fp.parent (extractTicketKey (stemOf fp.name)))
    ⟨content, 0, 0, 0, [], cache0, fs0, []⟩

/-! ## The spec's classification rule, stated from its words

§4.2: "match if the reference URL's network location equals the tracker's
network location, OR the URL textually contains an attachment-retrieval path
segment pattern associated with the tracker's API". Kept separate from
`isJiraUrl` (which is translated from the code) so the two can be compared. -/

/-- The classification rule as the spec words it, for an arbitrary
configured tracker base URL. -/
def specPrivateOrigin (base url : Str) : Bool :=
  urlNetloc url = urlNetloc base
    || (containsSub "/rest/api/".data url && containsSub "/attachment/".data url)

/-! ## Concrete fixtures used by witnesses and counterexamples -/

/-- A typical configuration: credentials present, tracker with a scheme. -/
def cDl : Downloader :=
  ⟨["out".data], ["images".data], "https://tracker.example".data,
   some "user".data, some "tok".data, true⟩

/-- A tracker base URL with no scheme: non-empty, but its netloc is empty. -/
def cDlNoScheme : Downloader :=
  ⟨["out".data], ["images".data], "example.com".data,
   some "user".data, some "tok".data, true⟩

def cURL1 : Str := "https://tracker.example/secure/attachment/1/diagram.png".data
def cURL2 : Str := "http://bad.example/x.png".data
def cURL3 : Str := "http://down.example/y.png".data
def cURL4 : Str := "http://big.example/big.png".data

/-- Network oracle: `cURL2` 404s, `cURL3` fails to connect, `cURL4` streams
one oversized chunk, anything else streams 100 bytes. -/
def cNet : Option (Str × Str) → Str → HttpResponse := fun _ u =>
  if u = cURL2 then .httpError 404
  else if u = cURL3 then .connectionError
  else if u = cURL4 then .ok [MAX_IMAGE_SIZE + 1]
  else .ok [100]

def cEnv : Env := ⟨cNet, fun _ => "abcd1234".data, fun _ => false⟩

/-- Same oracle but every document write raises. -/
def cEnvWF : Env := ⟨cNet, fun _ => "abcd1234".data, fun _ => true⟩

def cFP : DocPath := ⟨["out".data], "ABC-1.md".data⟩

/-- Document with two remote references: the first downloads, the second 404s. -/
def cContent2 : Str :=
  "See ![diagram](https://tracker.example/secure/attachment/1/diagram.png) here ![x](http://bad.example/x.png) end".data

/-- Document with a single remote reference whose URL is `cURL2`. -/
def cContent1 : Str := "![x](http://bad.example/x.png)".data

/-- Document with one remote reference that fails to connect. -/
def cContentConn : Str := "pre ![y](http://down.example/y.png) post".data

/-- Document with one non-remote (already relative) reference. -/
def cContentLocal : Str := "a ![x](./images/x.png) b".data

/-- Cache as it stands when `cURL2` was already downloaded earlier in the run. -/
def cCacheHit : List (Str × Str) := [(cURL2, "images/old.png".data)]

/-- Document with one remote reference that downloads successfully. -/
def cContentGood : Str := "![a](https://tracker.example/pic.png)".data

/-- What processing `cContentConn` produces: one remote reference found,
its download failing with a connection error. -/
def cOutConn : PFOutcome :=
  ⟨⟨"ABC-1".data, 1, 0, 0, 1, [cURL3 ++ ": ".data ++ "Connection failed".data]⟩,
    cContentConn, false, [], [], [],
    [PipeEvent.allocCall cURL3, PipeEvent.downloadCall cURL3]⟩

/-- A directory listing whose first document is unreadable. -/
def cFilesRF : List (DocPath × Except Str Str) :=
  [(⟨["out".data], "A.md".data⟩, Except.error "Permission denied".data),
   (⟨["out".data], "B.md".data⟩, Except.ok cContentLocal)]

/-! ## Helper lemmas: decimal digits are injective -/

theorem natDigitsAux_fuel : ∀ (f1 f2 n : Nat), n ≤ f1 → n ≤ f2 →
    natDigitsAux f1 n = natDigitsAux f2 n
  | 0, f2, n, h1, _ => by
    have hn : n = 0 := Nat.le_zero.mp h1
    subst hn; cases f2 <;> rfl
  | f + 1, f2, 0, _, _ => by cases f2 <;> rfl
  | f + 1, 0, n + 1, h1, h2 => by omega
  | f + 1, g + 1, n + 1, h1, h2 => by
    have hd : (n + 1) / 10 < n + 1 := Nat.div_lt_self (Nat.succ_pos n) (by omega)
    simp only [natDigitsAux]
    rw [natDigitsAux_fuel f g ((n + 1) / 10) (by omega) (by omega)]

theorem natDigitsAux_eq (n : Nat) (h : 0 < n) :
    natDigitsAux n n = natDigitsAux (n / 10) (n / 10) ++ [Nat.digitChar (n % 10)] := by
  cases n with
  | zero => omega
  | succ m =>
    have hd : (m + 1) / 10 < m + 1 := Nat.div_lt_self (Nat.succ_pos m) (by omega)
    simp only [natDigitsAux]
    rw [natDigitsAux_fuel m ((m + 1) / 10) ((m + 1) / 10) (by omega) (le_refl _)]

theorem natDigitsAux_ne_nil (n : Nat) (h : 0 < n) : natDigitsAux n n ≠ [] := by
  cases n with
  | zero => omega
  | succ m => simp [natDigitsAux]

theorem digitChar_inj : ∀ a < 10, ∀ b < 10, Nat.digitChar a = Nat.digitChar b → a = b := by
  decide

theorem natDigitsAux_self_inj : ∀ m : Nat, ∀ n : Nat, 0 < m → 0 < n →
    natDigitsAux m m = natDigitsAux n n → m = n := by
  intro m
  induction m using Nat.strong_induction_on with
  | _ m ih =>
    intro n hm hn h
    rw [natDigitsAux_eq m hm, natDigitsAux_eq n hn] at h
    have hlen : ([Nat.digitChar (m % 10)] : Str).length = ([Nat.digitChar (n % 10)] : Str).length := rfl
    obtain ⟨hpre, hlast⟩ := List.append_inj' h hlen
    have hmod : m % 10 = n % 10 :=
      digitChar_inj _ (Nat.mod_lt m (by omega)) _ (Nat.mod_lt n (by omega))
        (by simpa using hlast)
    by_cases hz : m / 10 = 0
    · rw [hz] at hpre
      have : n / 10 = 0 := by
        by_contra hnz
        exact natDigitsAux_ne_nil (n / 10) (Nat.pos_of_ne_zero hnz) hpre.symm
      omega
    · have hnz : n / 10 ≠ 0 := by
        intro h0
        rw [h0] at hpre
        exact natDigitsAux_ne_nil (m / 10) (Nat.pos_of_ne_zero hz) hpre
      have hdiv : m / 10 = n / 10 :=
        ih (m / 10) (Nat.div_lt_self hm (by omega)) (n / 10)
          (Nat.pos_of_ne_zero hz) (Nat.pos_of_ne_zero hnz) hpre
      omega

theorem natDigits_inj : ∀ m n : Nat, natDigits m = natDigits n → m = n := by
  have key : ∀ k : Nat, 0 < k → natDigitsAux k k ≠ ['0'] := by
    intro k hk h
    rw [natDigitsAux_eq k hk] at h
    have hpre : natDigitsAux (k / 10) (k / 10) = [] ∧ Nat.digitChar (k % 10) = '0' := by
      have h' : natDigitsAux (k / 10) (k / 10) ++ [Nat.digitChar (k % 10)] =
          ([] : Str) ++ ['0'] := by simpa using h
      have := List.append_inj' h' rfl
      exact ⟨this.1, by simpa using this.2⟩
    have hz : k / 10 = 0 := by
      by_contra hnz
      exact natDigitsAux_ne_nil (k / 10) (Nat.pos_of_ne_zero hnz) hpre.1
    have hmod : k % 10 = 0 :=
      digitChar_inj _ (Nat.mod_lt k (by omega)) 0 (by omega) (by simpa using hpre.2)
    omega
  intro m n h
  match m, n with
  | 0, 0 => rfl
  | 0, k + 1 =>
    exact absurd h.symm (by simpa [natDigits] using key (k + 1) (Nat.succ_pos k))
  | k + 1, 0 =>
    exact absurd h (by simpa [natDigits] using key (k + 1) (Nat.succ_pos k))
  | j + 1, k + 1 =>
    exact natDigitsAux_self_inj (j + 1) (k + 1) (Nat.succ_pos j) (Nat.succ_pos k)
      (by simpa [natDigits] using h)

/-! ## Helper lemmas: the collision loop of `_generate_filename` -/

theorem collideName_inj (base ext : Str) :
    ∀ j k : Nat, collideName base ext j = collideName base ext k → j = k := by
  intro j k h
  match j, k with
  | 0, 0 => rfl
  | 0, k + 1 =>
    exfalso
    have := congrArg List.length h
    simp [collideName] at this
    omega
  | j + 1, 0 =>
    exfalso
    have := congrArg List.length h
    simp [collideName] at this
    omega
  | j + 1, k + 1 =>
    simp only [collideName, List.append_assoc, List.cons_append] at h
    have h2 := List.cons_injective (List.append_cancel_left h)
    have h3 := List.append_cancel_right h2
    exact natDigits_inj _ _ h3

theorem joinPath_cons (c : Str) (l : List Str) (h : l ≠ []) :
    joinPath (c :: l) = c ++ '/' :: joinPath l := by
  cases l with
  | nil => exact absurd rfl h
  | cons b r => rfl

theorem joinPath_snoc_inj (dir : List Str) (a b : Str)
    (h : joinPath (dir ++ [a]) = joinPath (dir ++ [b])) : a = b := by
  induction dir with
  | nil => simpa [joinPath] using h
  | cons c cs ih =>
    rw [List.cons_append, List.cons_append,
      joinPath_cons c (cs ++ [a]) (by simp), joinPath_cons c (cs ++ [b]) (by simp)] at h
    exact ih (List.cons_injective (List.append_cancel_left h))

theorem exists_free_name (dir : List Str) (fs : List Str) (base ext : Str) :
    ∃ j, j ≤ fs.length ∧ joinPath (dir ++ [collideName base ext j]) ∉ fs := by
  by_contra hc
  push_neg at hc
  have hmaps : ∀ a : Fin (fs.length + 1), a ∈ (Finset.univ : Finset (Fin (fs.length + 1))) →
      joinPath (dir ++ [collideName base ext a.1]) ∈ fs.toFinset := by
    intro a _
    exact List.mem_toFinset.mpr (hc a.1 (by omega))
  have hinj : Set.InjOn (fun a : Fin (fs.length + 1) => joinPath (dir ++ [collideName base ext a.1]))
      (Finset.univ : Finset (Fin (fs.length + 1))) := by
    intro a _ b _ hab
    exact Fin.ext (collideName_inj base ext _ _ (joinPath_snoc_inj dir _ _ hab))
  have hcard := Finset.card_le_card_of_injOn _ hmaps hinj
  have hto := List.toFinset_card_le fs
  simp [Finset.card_univ] at hcard
  omega

theorem searchName_spec (dir fs : List Str) (base ext : Str) :
    ∀ fuel k, (∃ j, k ≤ j ∧ j < k + fuel ∧ joinPath (dir ++ [collideName base ext j]) ∉ fs) →
    ∃ m, k ≤ m ∧ searchName dir fs base ext k fuel = collideName base ext m ∧
      joinPath (dir ++ [collideName base ext m]) ∉ fs ∧
      ∀ i, k ≤ i → i < m → joinPath (dir ++ [collideName base ext i]) ∈ fs := by
  intro fuel
  induction fuel with
  | zero =>
    intro k ⟨j, h1, h2, _⟩
    omega
  | succ fuel ih =>
    intro k hex
    by_cases hmem : joinPath (dir ++ [collideName base ext k]) ∈ fs
    · obtain ⟨j, hj1, hj2, hj3⟩ := hex
      have hjk : j ≠ k := by
        intro he
        rw [he] at hj3
        exact hj3 hmem
      obtain ⟨m, hm1, hm2, hm3, hm4⟩ := ih (k + 1) ⟨j, by omega, by omega, hj3⟩
      refine ⟨m, by omega, ?_, hm3, ?_⟩
      · simpa [searchName, hmem] using hm2
      · intro i hi1 hi2
        by_cases he : i = k
        · rw [he]
          exact hmem
        · exact hm4 i (by omega) hi2
    · exact ⟨k, le_refl k, by simp [searchName, hmem], hmem, by omega⟩

/-! ## Helper lemmas: the reference scanner -/

theorem takeWhile_append_cons (p : Char → Bool) (xs : Str) (y : Char) (ys : Str)
    (hxs : ∀ x ∈ xs, p x = true) (hy : p y = false) :
    (xs ++ y :: ys).takeWhile p = xs := by
  induction xs with
  | nil => simp [hy]
  | cons a r ih =>
    have ha := hxs a (by simp)
    simp only [List.cons_append, List.takeWhile_cons, ha, if_true]
    rw [ih (fun x hx => hxs x (by simp [hx]))]

theorem dropWhile_append_cons (p : Char → Bool) (xs : Str) (y : Char) (ys : Str)
    (hxs : ∀ x ∈ xs, p x = true) (hy : p y = false) :
    (xs ++ y :: ys).dropWhile p = y :: ys := by
  induction xs with
  | nil => simp [List.dropWhile_cons, hy]
  | cons a r ih =>
    have ha := hxs a (by simp)
    simp only [List.cons_append, List.dropWhile_cons, ha, if_true]
    exact ih (fun x hx => hxs x (by simp [hx]))

theorem dropWhile_head_false (p : Char → Bool) (l : Str) (y : Char) (ys : Str)
    (h : l.dropWhile p = y :: ys) : p y = false := by
  induction l with
  | nil => simp at h
  | cons a r ih =>
    by_cases ha : p a
    · exact ih (by simpa [List.dropWhile_cons, ha] using h)
    · rw [List.dropWhile_cons, if_neg (by simpa using ha)] at h
      cases h
      simpa using ha

/-- Soundness of one regex match: it consumed exactly `fmChars alt url`, the
alt has no `]`, the URL no `)` and is nonempty. -/
theorem matchImageAt_some (l alt url rest : Str)
    (h : matchImageAt l = some (alt, url, rest)) :
    l = fmChars alt url ++ rest ∧ (∀ c ∈ alt, (c != ']') = true) ∧
      (∀ c ∈ url, (c != ')') = true) ∧ url ≠ [] := by
  match l with
  | [] => simp [matchImageAt] at h
  | [c] => simp [matchImageAt] at h
  | c1 :: c2 :: r =>
    simp only [matchImageAt] at h
    split at h
    · next hc =>
      split at h
      · next d1 d2 r2 hdw =>
        split at h
        · next hd =>
          split at h
          · next e1 t hdw2 =>
            split at h
            · next he =>
              obtain ⟨rfl, rfl, rfl⟩ := by simpa using h
              have hr : r = (List.takeWhile (fun c => c != ']') r) ++ d1 :: d2 :: r2 := by
                conv_lhs => rw [← List.takeWhile_append_dropWhile (p := fun c => c != ']') (l := r)]
                rw [hdw]
              have hr2 : r2 = (List.takeWhile (fun c => c != ')') r2) ++ e1 :: t := by
                conv_lhs => rw [← List.takeWhile_append_dropWhile (p := fun c => c != ')') (l := r2)]
                rw [hdw2]
              refine ⟨?_,
                fun c hc2 => List.mem_takeWhile_imp (p := fun c => c != ']') hc2,
                fun c hc2 => List.mem_takeWhile_imp (p := fun c => c != ')') hc2,
                by simpa using he.2⟩
              rw [hc.1, hc.2, fmChars]
              conv_lhs => rw [hr, hr2]
              rw [hd.1, hd.2, he.1]
              simp
            · exact absurd h (by simp)
          · exact absurd h (by simp)
        · exact absurd h (by simp)
      · next hne => exact absurd h (by simp)
    · exact absurd h (by simp)

/-- Completeness: at a position where the text literally spells out a full
match (alt without `]`, nonempty URL without `)`), the regex matches and
consumes exactly it. -/
theorem matchImageAt_fm (alt url t : Str)
    (halt : ∀ c ∈ alt, (c != ']') = true) (hurl : ∀ c ∈ url, (c != ')') = true)
    (hne : url ≠ []) :
    matchImageAt (fmChars alt url ++ t) = some (alt, url, t) := by
  have hshape : fmChars alt url ++ t = '!' :: '[' :: (alt ++ ']' :: '(' :: (url ++ ')' :: t)) := by
    simp [fmChars]
  rw [hshape]
  simp only [matchImageAt,
    takeWhile_append_cons _ alt ']' _ halt (by simp),
    dropWhile_append_cons _ alt ']' _ halt (by simp),
    takeWhile_append_cons _ url ')' t hurl (by simp),
    dropWhile_append_cons _ url ')' t hurl (by simp)]
  simp [List.isEmpty_iff, hne]

theorem fmChars_length (alt url : Str) :
    (fmChars alt url).length = alt.length + url.length + 5 := by
  simp [fmChars]
  omega

theorem scanAux_fuel : ∀ (f1 f2 : Nat) (l : Str) (pos : Nat),
    l.length ≤ f1 → l.length ≤ f2 → scanAux f1 l pos = scanAux f2 l pos
  | 0, f2, l, pos, h1, h2 => by
    have hl : l = [] := List.eq_nil_of_length_eq_zero (Nat.le_zero.mp h1)
    subst hl; cases f2 <;> rfl
  | f + 1, f2, [], pos, _, _ => by cases f2 <;> rfl
  | f + 1, 0, c :: r, pos, h1, h2 => by simp at h2
  | f + 1, g + 1, c :: r, pos, h1, h2 => by
    simp only [scanAux]
    rcases hm : matchImageAt (c :: r) with _ | ⟨alt, url, t⟩
    · simp only [hm]
      rw [scanAux_fuel f g r (pos + 1) (by simpa using h1) (by simpa using h2)]
    · obtain ⟨hsp, _, _, hne⟩ := matchImageAt_some _ _ _ _ hm
      have hlen : t.length + (fmChars alt url).length = r.length + 1 := by
        have := congrArg List.length hsp
        simp at this
        omega
      have hfml : 6 ≤ (fmChars alt url).length := by
        rw [fmChars_length]
        cases url with
        | nil => exact absurd rfl hne
        | cons x xs => simp; omega
      simp only [List.length_cons] at h1 h2
      simp only [hm]
      rw [scanAux_fuel f g t (pos + (fmChars alt url).length) (by omega) (by omega)]

theorem scanAux_head : ∀ (fuel : Nat) (l : Str) (pos p : Nat) (a u : Str)
    (rest' : List (Nat × Str × Str)), l.length ≤ fuel →
    scanAux fuel l pos = (p, a, u) :: rest' →
    pos ≤ p ∧
    (∃ t, l.drop (p - pos) = fmChars a u ++ t ∧
      rest' = scanAux t.length t (p + (fmChars a u).length) ∧
      (∀ c ∈ a, (c != ']') = true) ∧ (∀ c ∈ u, (c != ')') = true) ∧ u ≠ []) ∧
    ∀ q, pos ≤ q → q < p → matchImageAt (l.drop (q - pos)) = none
  | 0, l, pos, p, a, u, rest', h1, h => by
    have hl : l = [] := List.eq_nil_of_length_eq_zero (Nat.le_zero.mp h1)
    subst hl
    simp [scanAux] at h
  | fuel + 1, [], pos, p, a, u, rest', _, h => by simp [scanAux] at h
  | fuel + 1, c :: r, pos, p, a, u, rest', h1, h => by
    simp only [scanAux] at h
    rcases hm : matchImageAt (c :: r) with _ | ⟨alt, url, t⟩
    · simp only [hm] at h
      simp only [List.length_cons] at h1
      obtain ⟨hp, ⟨t, hdrop, hrest, hconds⟩, hnone⟩ :=
        scanAux_head fuel r (pos + 1) p a u rest' (by omega) h
      refine ⟨by omega, ⟨t, ?_, hrest, hconds⟩, ?_⟩
      · have hsub : p - pos = (p - (pos + 1)) + 1 := by omega
        rw [hsub, List.drop_succ_cons]
        exact hdrop
      · intro q hq1 hq2
        by_cases hq : q = pos
        · subst hq
          simpa using hm
        · have hsub : q - pos = (q - (pos + 1)) + 1 := by omega
          rw [hsub, List.drop_succ_cons]
          exact hnone q (by omega) hq2
    · simp only [hm] at h
      have hp : pos = p ∧ alt = a ∧ url = u := by
        have := congrArg List.head? h
        simpa using this
      obtain ⟨hp1, hp2, hp3⟩ := hp
      subst hp1 hp2 hp3
      have hrest : scanAux fuel t (pos + (fmChars alt url).length) = rest' := by
        have := congrArg List.tail h
        simpa using this
      obtain ⟨hsp, hca, hcu, hne⟩ := matchImageAt_some _ _ _ _ hm
      have hlen : t.length + (fmChars alt url).length = r.length + 1 := by
        have := congrArg List.length hsp
        simp at this
        omega
      have hfml : 6 ≤ (fmChars alt url).length := by
        rw [fmChars_length]
        cases url with
        | nil => exact absurd rfl hne
        | cons x xs => simp; omega
      simp only [List.length_cons] at h1
      refine ⟨le_refl pos, ⟨t, by simpa using hsp, ?_, hca, hcu, hne⟩, by omega⟩
      rw [← hrest]
      exact scanAux_fuel fuel t.length t (pos + (fmChars alt url).length) (by omega) (le_refl _)

theorem firstOccIdx_eq (pat : Str) : ∀ (i : Nat) (l : Str),
    pat <+: l.drop i → (∀ j, j < i → ¬ pat <+: l.drop j) →
    firstOccIdx pat l = some i
  | 0, l, h1, _ => by
    cases l with
    | nil =>
      have hp : pat = [] := List.prefix_nil.mp (by simpa using h1)
      simp [firstOccIdx, hp]
    | cons c r =>
      have : pat.isPrefixOf (c :: r) = true := List.isPrefixOf_iff_prefix.mpr (by simpa using h1)
      simp [firstOccIdx, this]
  | i + 1, l, h1, h2 => by
    cases l with
    | nil =>
      exfalso
      have hp : pat = [] := List.prefix_nil.mp (by simpa using h1)
      exact h2 0 (by omega) (by simp [hp])
    | cons c r =>
      have hnot : ¬ (pat.isPrefixOf (c :: r) = true) := by
        intro hp
        exact h2 0 (by omega) (by simpa using List.isPrefixOf_iff_prefix.mp hp)
      simp only [firstOccIdx, if_neg hnot]
      rw [firstOccIdx_eq pat i r (by simpa using h1)
        (fun j hj hp => h2 (j + 1) (by omega) (by simpa using hp))]
      rfl

/-- The first match the scanner reports is also the first *string*
occurrence of its matched text: `str.replace(full_match, ·, 1)` therefore
rewrites exactly the scanned occurrence. -/
theorem scan_firstOcc (content : Str) (p : Nat) (a u : Str)
    (rest' : List (Nat × Str × Str)) (h : scanImages content = (p, a, u) :: rest') :
    firstOccIdx (fmChars a u) content = some p := by
  obtain ⟨hpos, ⟨t, hsp, hrest, hca, hcu, hne⟩, hnomatch⟩ :=
    scanAux_head content.length content 0 p a u rest' (le_refl _) h
  rw [Nat.sub_zero] at hsp
  apply firstOccIdx_eq
  · exact ⟨t, hsp.symm⟩
  · intro j hj hpre
    obtain ⟨s, hs⟩ := hpre
    have hmj := matchImageAt_fm a u s hca hcu hne
    rw [hs] at hmj
    have h0 := hnomatch j (by omega) hj
    rw [Nat.sub_zero] at h0
    rw [h0] at hmj
    cases hmj

theorem replaceFirst_at (s pat new : Str) (p : Nat) (h : firstOccIdx pat s = some p) :
    replaceFirst s pat new = s.take p ++ new ++ s.drop (p + pat.length) := by
  simp [replaceFirst, h]

theorem isInfix_of_drop (l sub t : Str) (k : Nat) (h : l.drop k = sub ++ t) :
    sub <:+: l := by
  refine ⟨l.take k, t, ?_⟩
  conv_rhs => rw [← List.take_append_drop k l]
  rw [h, List.append_assoc]

theorem isInfix_append_right (sub x z : Str) (h : sub <:+: z) : sub <:+: x ++ z := by
  obtain ⟨s, t, hs⟩ := h
  exact ⟨x ++ s, t, by rw [← hs]; simp⟩

/-! ## Helper lemmas: loop accounting and totality of `process_file` -/

/-- Per-iteration bookkeeping of the image loop: a remote reference adds
exactly one to `downloaded + failed` (and an error message exactly when it
failed); a non-remote reference is only counted as skipped. -/
theorem stepImage_counts (d : Downloader) (env : Env) (parent : List Str) (tk : Str)
    (st : LoopState) (img : ImageInfo) :
    (isRemote img.url = true →
      (stepImage d env parent tk st img).downloaded + (stepImage d env parent tk st img).failed
        = st.downloaded + st.failed + 1 ∧
      (stepImage d env parent tk st img).skipped = st.skipped ∧
      (stepImage d env parent tk st img).errors.length + st.failed
        = st.errors.length + (stepImage d env parent tk st img).failed) ∧
    (isRemote img.url = false →
      stepImage d env parent tk st img = { st with skipped := st.skipped + 1 }) := by
  constructor
  · intro hr
    simp only [stepImage, hr, Bool.not_true, Bool.false_eq_true, if_false]
    rcases hc : lookupCache st.cache img.url with _ | path
    · simp only [hc]
      by_cases hs : (downloadImage d env st.fs img.url
          (joinPath (d.images_dir ++ [generateFilename d env.hash8 st.fs tk img.url img.alt_text]))
          (tempPathFor d.images_dir (generateFilename d env.hash8 st.fs tk img.url img.alt_text))
          img.is_jira).1.success
      · simp [hs]
        omega
      · simp [hs]
        omega
    · simp only [hc]
      simp
      omega
  · intro hr
    simp [stepImage, hr]

/-- The loop invariant behind the result accounting: folding the loop over
any image list adds `#remote` to `downloaded + failed`, `#non-remote` to
`skipped`, and one error per new failure. -/
theorem foldl_accounting (d : Downloader) (env : Env) (parent : List Str) (tk : Str) :
    ∀ (images : List ImageInfo) (st : LoopState),
    (images.foldl (stepImage d env parent tk) st).downloaded
        + (images.foldl (stepImage d env parent tk) st).failed
      = st.downloaded + st.failed + (images.filter (fun i => isRemote i.url)).length ∧
    (images.foldl (stepImage d env parent tk) st).skipped
      = st.skipped + (images.filter (fun i => !isRemote i.url)).length ∧
    (images.foldl (stepImage d env parent tk) st).errors.length + st.failed
      = st.errors.length + (images.foldl (stepImage d env parent tk) st).failed := by
  intro images
  induction images with
  | nil => intro st; simp
  | cons img rest ih =>
    intro st
    obtain ⟨ihd, ihs, ihe⟩ := ih (stepImage d env parent tk st img)
    obtain ⟨hrem, hloc⟩ := stepImage_counts d env parent tk st img
    simp only [List.foldl_cons, List.filter_cons]
    by_cases hr : isRemote img.url
    · obtain ⟨h1, h2, h3⟩ := hrem hr
      simp only [hr, if_true, Bool.not_true, Bool.false_eq_true, if_false, List.length_cons]
      refine ⟨by omega, by omega, by omega⟩
    · have hrf : isRemote img.url = false := by simpa using hr
      have he := hloc hrf
      rw [he] at ihd ihs ihe
      rw [he]
      simp only at ihd ihs ihe
      simp only [hrf, Bool.not_false, Bool.false_eq_true, if_false, if_true, List.length_cons]
      omega

/-- With the OS write succeeding, `process_file` never raises. -/
theorem processFile_ok (d : Downloader) (env : Env) (fp : DocPath)
    (rr : Except Str Str) (cache0 : List (Str × Str)) (fs0 : List Str)
    (docs0 : List (Str × Str))
    (hw : env.writeFails (joinPath (fp.parent ++ [fp.name])) = false) :
    ∃ out, processFile d env fp rr cache0 fs0 docs0 = Except.ok out := by
  cases rr with
  | error e => exact ⟨_, rfl⟩
  | ok content =>
    simp only [processFile]
    by_cases hemp : (findImages d content).isEmpty
    · rw [if_pos hemp]
      exact ⟨_, rfl⟩
    · rw [if_neg hemp]
      by_cases hch : ((findImages d content).foldl
          (stepImage d env fp.parent (extractTicketKey (stemOf fp.name)))
          ⟨content, 0, 0, 0, [], cache0, fs0, []⟩).updated ≠ content
      · rw [if_pos hch]
        simp only [writeAtomicDoc, hw, Bool.false_eq_true, if_false]
        exact ⟨_, rfl⟩
      · rw [if_neg hch]
        exact ⟨_, rfl⟩

/-- What `process_file` returns for a readable document, in terms of the
image-loop's final state: the result fields, the final text, and the
write-back behaviour (written only when the text changed). -/
theorem processFile_result (d : Downloader) (env : Env) (fp : DocPath) (content : Str)
    (cache0 : List (Str × Str)) (fs0 : List Str) (docs0 : List (Str × Str)) (out : PFOutcome)
    (h : processFile d env fp (.ok content) cache0 fs0 docs0 = .ok out) :
    out.result = ⟨extractTicketKey (stemOf fp.name),
        ((findImages d content).filter (fun i => isRemote i.url)).length,
        (loopOut d env fp content cache0 fs0).downloaded,
        (loopOut d env fp content cache0 fs0).skipped,
        (loopOut d env fp content cache0 fs0).failed,
        (loopOut d env fp content cache0 fs0).errors⟩ ∧
    out.content = (loopOut d env fp content cache0 fs0).updated ∧
    out.trace = (loopOut d env fp content cache0 fs0).trace ∧
    ((loopOut d env fp content cache0 fs0).updated = content →
      out.wrote = false ∧ out.docs = docs0) ∧
    ((loopOut d env fp content cache0 fs0).updated ≠ content →
      out.wrote = true ∧
      out.docs = (joinPath (fp.parent ++ [fp.name]),
        (loopOut d env fp content cache0 fs0).updated) :: docs0) := by
  simp only [loopOut]
  simp only [processFile] at h
  by_cases hemp : (findImages d content).isEmpty
  · rw [if_pos hemp] at h
    have hnil : findImages d content = [] := List.isEmpty_iff.mp hemp
    obtain rfl := Except.ok.inj h
    simp [hnil]
  · rw [if_neg hemp] at h
    by_cases hch : ((findImages d content).foldl
        (stepImage d env fp.parent (extractTicketKey (stemOf fp.name)))
        ⟨content, 0, 0, 0, [], cache0, fs0, []⟩).updated ≠ content
    · rw [if_pos hch] at h
      simp only [writeAtomicDoc] at h
      by_cases hwf : env.writeFails (joinPath (fp.parent ++ [fp.name])) = true
      · rw [if_pos hwf] at h
        cases h
      · rw [if_neg hwf] at h
        rw [List.eraseP_cons_of_pos (by simp)] at h
        obtain rfl := Except.ok.inj h
        refine ⟨rfl, rfl, rfl, fun hc => absurd hc hch, fun _ => ⟨rfl, rfl⟩⟩
    · rw [if_neg hch] at h
      obtain rfl := Except.ok.inj h
      refine ⟨rfl, rfl, rfl, fun _ => ⟨rfl, rfl⟩, fun hne => absurd hne hch⟩

/-! ## Claim theorems -/

/-- C6: for every download request sent by `_download_image`, basic-auth
credentials — the tracker username and API token — are attached if and only
if the reference's classification flag is true and both the username and
the API token are configured (truthy); in every other case the request is
sent with no credentials. (`requestAuth` is exactly the `auth` argument
`downloadImage` passes to the network.) -/
theorem requestAuth_iff_configured (d : Downloader) (b : Bool) :
    ((∃ creds, requestAuth d b = some creds) ↔
      b = true ∧ optTruthy d.jira_username = true ∧ optTruthy d.jira_api_token = true) ∧
    (requestAuth d b = none ∨
      requestAuth d b = some (d.jira_username.getD [], d.jira_api_token.getD [])) := by
  constructor
  · constructor
    · rintro ⟨creds, hc⟩
      by_cases h : (b && optTruthy d.jira_username && optTruthy d.jira_api_token) = true
      · obtain ⟨⟨ha, hb⟩, hc'⟩ := by simpa [Bool.and_eq_true] using h
        exact ⟨ha, hb, hc'⟩
      · rw [requestAuth, if_neg h] at hc
        cases hc
    · rintro ⟨h1, h2, h3⟩
      exact ⟨(d.jira_username.getD [], d.jira_api_token.getD []),
        by simp [requestAuth, h1, h2, h3]⟩
  · by_cases h : (b && optTruthy d.jira_username && optTruthy d.jira_api_token) = true
    · right
      rw [requestAuth, if_pos h]
    · left
      rw [requestAuth, if_neg h]

/-- C2: a failing download attempt — HTTP error, connection failure,
timeout, or the streamed body exceeding the 50 MiB cap — leaves the asset
directory exactly as it was (nothing new at the destination) and the temp
file removed; the destination becomes visible (written via temp file then
rename in the destination's directory) only on full success; an oversized
body in particular fails with the oversize reason. -/
theorem downloadImage_failure_atomic (d : Downloader) (env : Env) (fs : List Str)
    (url lp tmp : Str) (ij : Bool) (htmp : tmp ∉ fs) (hne : tmp ≠ lp) :
    ((downloadImage d env fs url lp tmp ij).1.success = false →
      (downloadImage d env fs url lp tmp ij).2 = fs) ∧
    ((downloadImage d env fs url lp tmp ij).1.success = true →
      (downloadImage d env fs url lp tmp ij).2 = lp :: fs) ∧
    tmp ∉ (downloadImage d env fs url lp tmp ij).2 ∧
    (∀ chunks, env.net (requestAuth d ij) url = .ok chunks →
      streamOk MAX_IMAGE_SIZE 0 chunks = false →
      (downloadImage d env fs url lp tmp ij).1.success = false ∧
      (downloadImage d env fs url lp tmp ij).1.error = some oversizeMsg) := by
  rcases hn : env.net (requestAuth d ij) url with code | _ | _ | chunks
  case httpError =>
    refine ⟨fun _ => by simp [downloadImage, hn], fun hs => ?_, ?_, fun ch hch => ?_⟩
    · simp [downloadImage, hn] at hs
    · simpa [downloadImage, hn] using htmp
    · cases hch
  case connectionError =>
    refine ⟨fun _ => by simp [downloadImage, hn], fun hs => ?_, ?_, fun ch hch => ?_⟩
    · simp [downloadImage, hn] at hs
    · simpa [downloadImage, hn] using htmp
    · cases hch
  case timeout =>
    refine ⟨fun _ => by simp [downloadImage, hn], fun hs => ?_, ?_, fun ch hch => ?_⟩
    · simp [downloadImage, hn] at hs
    · simpa [downloadImage, hn] using htmp
    · cases hch
  case ok =>
    have herase : (tmp :: fs).erase tmp = fs := List.erase_cons_head tmp fs
    by_cases hst : streamOk MAX_IMAGE_SIZE 0 chunks = true
    · refine ⟨fun hf => ?_, fun _ => ?_, ?_, fun ch hch hbad => ?_⟩
      · simp [downloadImage, hn, hst] at hf
      · simp [downloadImage, hn, hst, herase]
      · simp [downloadImage, hn, hst, herase, hne, htmp]
      · obtain rfl : chunks = ch := HttpResponse.ok.inj hch
        rw [hst] at hbad
        cases hbad
    · rw [Bool.not_eq_true] at hst
      refine ⟨fun _ => ?_, fun hs => ?_, ?_, fun ch hch hbad => ⟨?_, ?_⟩⟩
      · simp [downloadImage, hn, hst, herase]
      · simp [downloadImage, hn, hst] at hs
      · simpa [downloadImage, hn, hst, herase] using htmp
      · simp [downloadImage, hn, hst]
      · simp [downloadImage, hn, hst]

/-- C2 witness: a 404 and an oversized body against an empty directory. -/
theorem downloadImage_failure_atomic_witness :
    (".tmp-x".data ∉ ([] : List Str) ∧ ".tmp-x".data ≠ "images/x.png".data) ∧
    ((downloadImage cDl cEnv [] cURL4 "images/x.png".data ".tmp-x".data false).1.success = false →
      (downloadImage cDl cEnv [] cURL4 "images/x.png".data ".tmp-x".data false).2 = []) ∧
    ((downloadImage cDl cEnv [] cURL4 "images/x.png".data ".tmp-x".data false).1.success = true →
      (downloadImage cDl cEnv [] cURL4 "images/x.png".data ".tmp-x".data false).2
        = "images/x.png".data :: []) ∧
    ".tmp-x".data ∉ (downloadImage cDl cEnv [] cURL4 "images/x.png".data ".tmp-x".data false).2 ∧
    (∀ chunks, cEnv.net (requestAuth cDl false) cURL4 = .ok chunks →
      streamOk MAX_IMAGE_SIZE 0 chunks = false →
      (downloadImage cDl cEnv [] cURL4 "images/x.png".data ".tmp-x".data false).1.success = false ∧
      (downloadImage cDl cEnv [] cURL4 "images/x.png".data ".tmp-x".data false).1.error
        = some oversizeMsg) :=
  ⟨⟨by decide, by decide⟩,
    downloadImage_failure_atomic cDl cEnv [] cURL4 "images/x.png".data ".tmp-x".data false
      (by decide) (by decide)⟩

/-- C4: a reference whose URL is not http(s) is never downloaded: the loop
iteration leaves the text, the other counters, the error list, the cache,
the files on disk and the invocation trace untouched and only increments
`images_skipped`; and `images_found` counts only the remote references. -/
theorem nonremote_reference_skipped (d : Downloader) (env : Env) (parent : List Str)
    (tk : Str) (st : LoopState) (img : ImageInfo) (fp : DocPath) (content : Str)
    (cache0 : List (Str × Str)) (fs0 : List Str) (docs0 : List (Str × Str))
    (out : PFOutcome) (hr : isRemote img.url = false)
    (hpf : processFile d env fp (.ok content) cache0 fs0 docs0 = .ok out) :
    stepImage d env parent tk st img = { st with skipped := st.skipped + 1 } ∧
    out.result.images_found
      = ((findImages d content).filter (fun i => isRemote i.url)).length := by
  constructor
  · simp [stepImage, hr]
  · obtain ⟨hres, -, -, -, -⟩ := processFile_result d env fp content cache0 fs0 docs0 out hpf
    rw [hres]

/-- C4 witness: an already-relative reference `./images/x.png`. -/
theorem nonremote_reference_skipped_witness :
    isRemote "./images/x.png".data = false ∧
    (processFile cDl cEnv cFP (.ok cContentLocal) [] [] [])
      = .ok ⟨⟨"ABC-1".data, 0, 0, 1, 0, []⟩, cContentLocal, false, [], [], [], []⟩ ∧
    (stepImage cDl cEnv ["out".data] "ABC-1".data ⟨cContentLocal, 0, 0, 0, [], [], [], []⟩
        ⟨"x".data, "./images/x.png".data, fmChars "x".data "./images/x.png".data, false⟩
      = { (⟨cContentLocal, 0, 0, 0, [], [], [], []⟩ : LoopState) with skipped := 0 + 1 } ∧
    (⟨⟨"ABC-1".data, 0, 0, 1, 0, []⟩, cContentLocal, false, [], [], [], []⟩ :
        PFOutcome).result.images_found
      = ((findImages cDl cContentLocal).filter (fun i => isRemote i.url)).length) :=
  ⟨by decide, by rfl,
    nonremote_reference_skipped cDl cEnv ["out".data] "ABC-1".data
      ⟨cContentLocal, 0, 0, 0, [], [], [], []⟩
      ⟨"x".data, "./images/x.png".data, fmChars "x".data "./images/x.png".data, false⟩
      cFP cContentLocal [] [] []
      ⟨⟨"ABC-1".data, 0, 0, 1, 0, []⟩, cContentLocal, false, [], [], [], []⟩
      (by decide) (by rfl)⟩

theorem docTempFor_ne (p : Str) : docTempFor p ≠ p := by
  intro h
  have := congrArg List.length h
  simp [docTempFor] at this
  omega

/-- C5: the document is written back only when the updated text differs from
what was read: unchanged text means no write and an untouched document
store; a write that does happen goes through the temp-entry-then-rename
discipline of `_write_atomic` and leaves no temp entry behind. -/
theorem processFile_write_only_if_changed (d : Downloader) (env : Env) (fp : DocPath)
    (content : Str) (cache0 : List (Str × Str)) (fs0 : List Str) (docs0 : List (Str × Str))
    (hw : env.writeFails (joinPath (fp.parent ++ [fp.name])) = false)
    (htmp : docTempFor (joinPath (fp.parent ++ [fp.name])) ∉ docs0.map Prod.fst) :
    ∃ out, processFile d env fp (.ok content) cache0 fs0 docs0 = .ok out ∧
      (out.wrote = true ↔ out.content ≠ content) ∧
      (out.content = content → out.docs = docs0) ∧
      (out.content ≠ content →
        out.docs = (joinPath (fp.parent ++ [fp.name]), out.content) :: docs0) ∧
      docTempFor (joinPath (fp.parent ++ [fp.name])) ∉ out.docs.map Prod.fst := by
  obtain ⟨out, hout⟩ := processFile_ok d env fp (.ok content) cache0 fs0 docs0 hw
  obtain ⟨hres, hcont, htr, hunch, hch⟩ :=
    processFile_result d env fp content cache0 fs0 docs0 out hout
  by_cases he : (loopOut d env fp content cache0 fs0).updated = content
  · obtain ⟨hw0, hd0⟩ := hunch he
    refine ⟨out, hout, ?_, fun _ => hd0, fun hne => absurd (hcont.trans he) hne, ?_⟩
    · rw [hw0, hcont, he]
      simp
    · rw [hd0]
      exact htmp
  · obtain ⟨hw1, hd1⟩ := hch he
    refine ⟨out, hout, ?_, fun hc => absurd (hcont ▸ hc) he, fun _ => hcont ▸ hd1, ?_⟩
    · rw [hw1, hcont]
      simp [he]
    · rw [hd1]
      simp only [List.map_cons, List.mem_cons]
      rintro (h1 | h2)
      · exact docTempFor_ne _ h1
      · exact htmp h2

/-- C5 witness: a changed document (one successful download) is written;
running on the written content again would change nothing. -/
theorem processFile_write_only_if_changed_witness :
    (cEnv.writeFails (joinPath (cFP.parent ++ [cFP.name])) = false ∧
      docTempFor (joinPath (cFP.parent ++ [cFP.name])) ∉ ([] : List (Str × Str)).map Prod.fst) ∧
    (∃ out, processFile cDl cEnv cFP (.ok cContentGood) [] [] [] = .ok out ∧
      (out.wrote = true ↔ out.content ≠ cContentGood) ∧
      (out.content = cContentGood → out.docs = []) ∧
      (out.content ≠ cContentGood →
        out.docs = (joinPath (cFP.parent ++ [cFP.name]), out.content) :: []) ∧
      docTempFor (joinPath (cFP.parent ++ [cFP.name])) ∉ out.docs.map Prod.fst) :=
  ⟨⟨by decide, by decide⟩,
    processFile_write_only_if_changed cDl cEnv cFP cContentGood [] [] []
      (by decide) (by decide)⟩

theorem jiraDomain_eq_netloc (d : Downloader) : jiraDomain d = urlNetloc d.jira_url := by
  by_cases h : d.jira_url.isEmpty
  · have : d.jira_url = [] := by simpa [List.isEmpty_iff] using h
    rw [jiraDomain, this]
    simp
    rfl
  · simp [jiraDomain, h]

/-- C7 (amended): for every tracker base URL whose network location is
non-empty, `_is_jira_url` marks a URL as a private-origin asset exactly when
the URL's netloc equals the tracker's netloc or the URL contains both
`/rest/api/` and `/attachment/` — the spec's rule. (For a non-empty base URL
with an *empty* netloc, e.g. one written without a scheme, the code always
answers `false`; see the counterexample.) -/
theorem isJiraUrl_matches_spec_rule (d : Downloader) (url : Str)
    (h : jiraDomain d ≠ []) :
    isJiraUrl d url = specPrivateOrigin d.jira_url url := by
  have h2 : (jiraDomain d).isEmpty = false := by
    rw [List.isEmpty_eq_false_iff_exists_mem]
    cases hd : jiraDomain d with
    | nil => exact absurd hd h
    | cons a l => exact ⟨a, by simp⟩
  rw [isJiraUrl, if_neg (by simp [h2]), specPrivateOrigin, jiraDomain_eq_netloc]

/-- C7 witness: a base URL with a scheme (non-empty netloc); the rule holds
for a same-netloc URL. -/
theorem isJiraUrl_matches_spec_rule_witness :
    jiraDomain cDl ≠ [] ∧
    isJiraUrl cDl "https://tracker.example/x.png".data
      = specPrivateOrigin cDl.jira_url "https://tracker.example/x.png".data :=
  ⟨by decide, isJiraUrl_matches_spec_rule cDl "https://tracker.example/x.png".data (by decide)⟩

/-- C7 counterexample: the tracker base URL `example.com` is configured
(non-empty) but carries no scheme, so its network location is empty; a URL
that textually contains the attachment pattern is classified `false` by the
code although the claim's rule classifies it `true`. -/
theorem isJiraUrl_spec_rule_cex :
    cDlNoScheme.jira_url ≠ [] ∧
    specPrivateOrigin cDlNoScheme.jira_url
      "https://other.example/rest/api/2/attachment/content/5".data = true ∧
    isJiraUrl cDlNoScheme
      "https://other.example/rest/api/2/attachment/content/5".data = false := by
  refine ⟨by decide, by decide, by decide⟩

/-- C1 (amended): a remote reference whose URL is already in the download
cache is rewritten to point at the cached local path and counted as
downloaded (not failed or skipped), without invoking the asset downloader —
no `downloadCall` is traced and cache, asset directory and counters other
than `downloaded` are untouched. The name allocator, however, IS invoked
again (line 131 runs before the cache probe): an `allocCall` is traced, its
result discarded. -/
theorem cacheHit_no_redownload (d : Downloader) (env : Env) (parent : List Str)
    (tk : Str) (st : LoopState) (img : ImageInfo) (path : Str)
    (hr : isRemote img.url = true) (hc : lookupCache st.cache img.url = some path) :
    stepImage d env parent tk st img =
      { st with
        updated := replaceFirst st.updated img.full_match
          (fmChars img.alt_text (relpathStr parent path)),
        downloaded := st.downloaded + 1,
        trace := st.trace ++ [PipeEvent.allocCall img.url] } := by
  simp [stepImage, hr, hc]

/-- C1 witness: the cached `cURL2` is reused: one more `downloaded`, a
rewrite to the cached path, and only an `allocCall` traced. -/
theorem cacheHit_no_redownload_witness :
    isRemote cURL2 = true ∧
    lookupCache cCacheHit cURL2 = some "images/old.png".data ∧
    stepImage cDl cEnv ["out".data] "ABC-1".data
        ⟨cContent1, 0, 0, 0, [], cCacheHit, [], []⟩
        ⟨"x".data, cURL2, fmChars "x".data cURL2, isJiraUrl cDl cURL2⟩ =
      { (⟨cContent1, 0, 0, 0, [], cCacheHit, [], []⟩ : LoopState) with
        updated := replaceFirst cContent1 (fmChars "x".data cURL2)
          (fmChars "x".data (relpathStr ["out".data] "images/old.png".data)),
        downloaded := 0 + 1,
        trace := [] ++ [PipeEvent.allocCall cURL2] } :=
  ⟨by decide, by decide,
    cacheHit_no_redownload cDl cEnv ["out".data] "ABC-1".data
      ⟨cContent1, 0, 0, 0, [], cCacheHit, [], []⟩
      ⟨"x".data, cURL2, fmChars "x".data cURL2, isJiraUrl cDl cURL2⟩
      "images/old.png".data (by decide) (by decide)⟩

/-- C1 counterexample: processing a document whose only (remote) reference
is already cached still invokes the name allocator — the trace of the run is
exactly `[allocCall cURL2]` (and no `downloadCall`), while the reference is
counted as downloaded; the claim's "without invoking … NameAllocator again"
is false. -/
theorem cacheHit_alloc_invoked_cex :
    (processFile cDl cEnv cFP (.ok cContent1) cCacheHit [] []).toOption.map
        (fun o => (o.trace, o.result.images_downloaded, o.result.images_failed,
          o.result.images_skipped)) =
      some ([PipeEvent.allocCall cURL2], 1, 0, 0) := by decide

theorem generateFilename_not_mem (d : Downloader) (h8 : Str → Str) (fs : List Str)
    (tk url alt : Str) :
    joinPath (d.images_dir ++ [generateFilename d h8 fs tk url alt]) ∉ fs := by
  obtain ⟨j, hj1, hj2⟩ := exists_free_name d.images_dir fs
    (splitext (tk ++ '-' :: proposedName h8 url alt)).1
    (splitext (tk ++ '-' :: proposedName h8 url alt)).2
  obtain ⟨m, -, hm1, hm2, -⟩ := searchName_spec d.images_dir fs
    (splitext (tk ++ '-' :: proposedName h8 url alt)).1
    (splitext (tk ++ '-' :: proposedName h8 url alt)).2
    (fs.length + 1) 0 ⟨j, by omega, by omega, hj2⟩
  simp only [generateFilename]
  rw [hm1]
  exact hm2

/-- C8: `_generate_filename` returns a name whose path is free on disk,
reached from the proposed `{base}{ext}` by walking `{base}-1{ext}`,
`{base}-2{ext}`, … past every occupied candidate; hence allocating again for
the same document once the first file exists on disk (whatever URL or alt
text produced it) yields a different filename. -/
theorem generateFilename_collision_free (d : Downloader) (h8 : Str → Str)
    (fs : List Str) (tk url alt url2 alt2 : Str) :
    joinPath (d.images_dir ++ [generateFilename d h8 fs tk url alt]) ∉ fs ∧
    (∃ k, generateFilename d h8 fs tk url alt =
        collideName (splitext (tk ++ '-' :: proposedName h8 url alt)).1
          (splitext (tk ++ '-' :: proposedName h8 url alt)).2 k ∧
      ∀ j, j < k →
        joinPath (d.images_dir ++
          [collideName (splitext (tk ++ '-' :: proposedName h8 url alt)).1
            (splitext (tk ++ '-' :: proposedName h8 url alt)).2 j]) ∈ fs) ∧
    generateFilename d h8
        (joinPath (d.images_dir ++ [generateFilename d h8 fs tk url alt]) :: fs)
        tk url2 alt2
      ≠ generateFilename d h8 fs tk url alt := by
  refine ⟨generateFilename_not_mem d h8 fs tk url alt, ?_, ?_⟩
  · obtain ⟨j, hj1, hj2⟩ := exists_free_name d.images_dir fs
      (splitext (tk ++ '-' :: proposedName h8 url alt)).1
      (splitext (tk ++ '-' :: proposedName h8 url alt)).2
    obtain ⟨m, -, hm1, -, hm3⟩ := searchName_spec d.images_dir fs
      (splitext (tk ++ '-' :: proposedName h8 url alt)).1
      (splitext (tk ++ '-' :: proposedName h8 url alt)).2
      (fs.length + 1) 0 ⟨j, by omega, by omega, hj2⟩
    refine ⟨m, ?_, fun j' hj' => hm3 j' (by omega) hj'⟩
    simp only [generateFilename]
    exact hm1
  · intro he
    have h2 := generateFilename_not_mem d h8
      (joinPath (d.images_dir ++ [generateFilename d h8 fs tk url alt]) :: fs) tk url2 alt2
    rw [he] at h2
    exact h2 (by simp)

/-- C10: for every successfully read document, the result satisfies the
accounting identity: found = downloaded + failed, skipped = number of
non-remote references, and exactly one error entry per failed download. -/
theorem processFile_accounting (d : Downloader) (env : Env) (fp : DocPath)
    (content : Str) (cache0 : List (Str × Str)) (fs0 : List Str)
    (docs0 : List (Str × Str)) (out : PFOutcome)
    (h : processFile d env fp (.ok content) cache0 fs0 docs0 = .ok out) :
    out.result.images_found
      = out.result.images_downloaded + out.result.images_failed ∧
    out.result.images_skipped
      = ((findImages d content).filter (fun i => !isRemote i.url)).length ∧
    out.result.errors.length = out.result.images_failed := by
  obtain ⟨hres, -, -, -, -⟩ := processFile_result d env fp content cache0 fs0 docs0 out h
  obtain ⟨hd, hs, he⟩ := foldl_accounting d env fp.parent (extractTicketKey (stemOf fp.name))
    (findImages d content) ⟨content, 0, 0, 0, [], cache0, fs0, []⟩
  rw [hres]
  simp only [loopOut]
  simp only [List.length_nil] at hd hs he
  refine ⟨by omega, by simpa using hs, by omega⟩

/-- C10 witness: a document whose single remote reference fails to connect:
found 1 = downloaded 0 + failed 1, one error entry, zero skipped. -/
theorem processFile_accounting_witness :
    processFile cDl cEnv cFP (.ok cContentConn) [] [] [] = .ok cOutConn ∧
    (cOutConn.result.images_found
        = cOutConn.result.images_downloaded + cOutConn.result.images_failed ∧
      cOutConn.result.images_skipped
        = ((findImages cDl cContentConn).filter (fun i => !isRemote i.url)).length ∧
      cOutConn.result.errors.length = cOutConn.result.images_failed) :=
  ⟨by rfl, processFile_accounting cDl cEnv cFP cContentConn [] [] [] cOutConn (by rfl)⟩

/-- C9 (amended): with the OS never failing a document write, the directory
run returns exactly one result per document, in order; a document whose read
failed contributes a result whose counts are all zero and whose sole error
is the read error, and processing continues past it — read and download
failures never raise past the document boundary. (A document *write*
failure, by contrast, propagates out of `_write_atomic` uncaught and aborts
the run: see the counterexample.) -/
theorem processDirectory_read_failure_isolated (d : Downloader) (env : Env)
    (hw : ∀ p, env.writeFails p = false) :
    ∀ (files : List (DocPath × Except Str Str)) (cache : List (Str × Str))
      (fs : List Str) (docs : List (Str × Str)),
    ∃ results, processDirectory d env files cache fs docs = Except.ok results ∧
      results.length = files.length ∧
      results.map Prod.fst = files.map (fun f => f.1.name) ∧
      ∀ i fp e, files.get? i = some (fp, Except.error e) →
        results.get? i = some (fp.name,
          ⟨extractTicketKey (stemOf fp.name), 0, 0, 0, 0,
            ["Failed to read file: ".data ++ e]⟩) := by
  intro files
  induction files with
  | nil =>
    intro cache fs docs
    exact ⟨[], rfl, rfl, rfl, fun i fp e hcontr => by simp at hcontr⟩
  | cons f rest ih =>
    obtain ⟨fp0, rr0⟩ := f
    intro cache fs docs
    obtain ⟨out, hout⟩ := processFile_ok d env fp0 rr0 cache fs docs (hw _)
    obtain ⟨results, hres, hlen, hnames, hread⟩ := ih out.cache out.fs out.docs
    refine ⟨(fp0.name, out.result) :: results, ?_, by simp [hlen], by simp [hnames], ?_⟩
    · simp only [processDirectory, hout, hres]
    · intro i fp e hget
      cases i with
      | zero =>
        obtain ⟨h1, h2⟩ : fp0 = fp ∧ rr0 = Except.error e := by simpa using hget
        subst h1
        rw [h2] at hout
        have hdef : processFile d env fp0 (Except.error e) cache fs docs =
            Except.ok ⟨⟨extractTicketKey (stemOf fp0.name), 0, 0, 0, 0,
              ["Failed to read file: ".data ++ e]⟩, [], false, cache, fs, docs, []⟩ := rfl
        have hout2 := Except.ok.inj (hdef.symm.trans hout)
        simp [← hout2]
      | succ i' =>
        simpa using hread i' fp e (by simpa using hget)

/-- C9 witness: an unreadable first document is reported with zero counts
and its read error, and the second document is still processed. -/
theorem processDirectory_read_failure_isolated_witness :
    (∀ p, cEnv.writeFails p = false) ∧
    (∃ results, processDirectory cDl cEnv cFilesRF [] [] [] = Except.ok results ∧
      results.length = cFilesRF.length ∧
      results.map Prod.fst = cFilesRF.map (fun f => f.1.name) ∧
      ∀ i fp e, cFilesRF.get? i = some (fp, Except.error e) →
        results.get? i = some (fp.name,
          ⟨extractTicketKey (stemOf fp.name), 0, 0, 0, 0,
            ["Failed to read file: ".data ++ e]⟩)) :=
  ⟨fun _ => rfl,
    processDirectory_read_failure_isolated cDl cEnv (fun _ => rfl) cFilesRF [] [] []⟩

/-- C9 counterexample: a run whose first document downloads an image (so its
text changes) but whose write raises: the whole run aborts with the write
error — the second document gets no result entry, so the claim's "returns a
result entry for every document attempted; no per-document failure raises
past the document boundary" is false. -/
theorem processDirectory_write_failure_aborts_cex :
    processDirectory cDl cEnvWF
        [(cFP, Except.ok cContentGood), (⟨["out".data], "B.md".data⟩, Except.ok cContent1)]
        [] [] []
      = Except.error "write failed: out/ABC-1.md".data := by rfl

/-- C3: for a document whose two references are both remote with distinct
URLs, where the first download succeeds and the second fails with an HTTP
status error (e.g. 404), processing completes without raising: the result
reports 1 downloaded and 1 failed with exactly the failure's error appended;
the rewritten text replaces exactly the first reference's matched markup
(its first string occurrence) with the local relative path and keeps every
other byte — in particular the second reference's original markup still
occurs verbatim in the rewritten text. -/
theorem failed_reference_isolated (d : Downloader) (env : Env) (fp : DocPath)
    (content : Str) (fs0 : List Str) (docs0 : List (Str × Str))
    (p1 p2 : Nat) (a1 u1 a2 u2 : Str) (chunks : List Nat) (code : Nat)
    (hscan : scanImages content = [(p1, a1, u1), (p2, a2, u2)])
    (hr1 : isRemote u1 = true) (hr2 : isRemote u2 = true) (hne : u1 ≠ u2)
    (hnet1 : env.net (requestAuth d (isJiraUrl d u1)) u1 = .ok chunks)
    (hsize : streamOk MAX_IMAGE_SIZE 0 chunks = true)
    (hnet2 : env.net (requestAuth d (isJiraUrl d u2)) u2 = .httpError code)
    (hw : env.writeFails (joinPath (fp.parent ++ [fp.name])) = false) :
    ∃ out, processFile d env fp (.ok content) [] fs0 docs0 = Except.ok out ∧
      out.result.images_downloaded = 1 ∧
      out.result.images_failed = 1 ∧
      out.result.errors = [u2 ++ ": ".data ++ ("HTTP ".data ++ natDigits code)] ∧
      out.content = content.take p1 ++
        fmChars a1 (relpathStr fp.parent (joinPath (d.images_dir ++
          [generateFilename d env.hash8 fs0 (extractTicketKey (stemOf fp.name)) u1 a1]))) ++
        content.drop (p1 + (fmChars a1 u1).length) ∧
      fmChars a2 u2 <:+: out.content := by
  have hfi : findImages d content =
      [⟨a1, u1, fmChars a1 u1, isJiraUrl d u1⟩, ⟨a2, u2, fmChars a2 u2, isJiraUrl d u2⟩] := by
    simp [findImages, hscan]
  obtain ⟨out, hout⟩ := processFile_ok d env fp (.ok content) [] fs0 docs0 hw
  obtain ⟨hres, hcont, -, -, -⟩ := processFile_result d env fp content [] fs0 docs0 out hout
  -- the two loop iterations, evaluated
  have h1 : stepImage d env fp.parent (extractTicketKey (stemOf fp.name))
      ⟨content, 0, 0, 0, [], [], fs0, []⟩ ⟨a1, u1, fmChars a1 u1, isJiraUrl d u1⟩ =
      ⟨replaceFirst content (fmChars a1 u1)
          (fmChars a1 (relpathStr fp.parent (joinPath (d.images_dir ++
            [generateFilename d env.hash8 fs0 (extractTicketKey (stemOf fp.name)) u1 a1])))),
        1, 0, 0, [],
        [(u1, joinPath (d.images_dir ++
          [generateFilename d env.hash8 fs0 (extractTicketKey (stemOf fp.name)) u1 a1]))],
        joinPath (d.images_dir ++
          [generateFilename d env.hash8 fs0 (extractTicketKey (stemOf fp.name)) u1 a1]) :: fs0,
        [PipeEvent.allocCall u1, PipeEvent.downloadCall u1]⟩ := by
    simp [stepImage, hr1, lookupCache, downloadImage, hnet1, hsize, List.erase_cons_head]
  have h2 : stepImage d env fp.parent (extractTicketKey (stemOf fp.name))
      (⟨replaceFirst content (fmChars a1 u1)
          (fmChars a1 (relpathStr fp.parent (joinPath (d.images_dir ++
            [generateFilename d env.hash8 fs0 (extractTicketKey (stemOf fp.name)) u1 a1])))),
        1, 0, 0, [],
        [(u1, joinPath (d.images_dir ++
          [generateFilename d env.hash8 fs0 (extractTicketKey (stemOf fp.name)) u1 a1]))],
        joinPath (d.images_dir ++
          [generateFilename d env.hash8 fs0 (extractTicketKey (stemOf fp.name)) u1 a1]) :: fs0,
        [PipeEvent.allocCall u1, PipeEvent.downloadCall u1]⟩ : LoopState)
      ⟨a2, u2, fmChars a2 u2, isJiraUrl d u2⟩ =
      ⟨replaceFirst content (fmChars a1 u1)
          (fmChars a1 (relpathStr fp.parent (joinPath (d.images_dir ++
            [generateFilename d env.hash8 fs0 (extractTicketKey (stemOf fp.name)) u1 a1])))),
        1, 0, 1, [u2 ++ ": ".data ++ ("HTTP ".data ++ natDigits code)],
        [(u1, joinPath (d.images_dir ++
          [generateFilename d env.hash8 fs0 (extractTicketKey (stemOf fp.name)) u1 a1]))],
        joinPath (d.images_dir ++
          [generateFilename d env.hash8 fs0 (extractTicketKey (stemOf fp.name)) u1 a1]) :: fs0,
        [PipeEvent.allocCall u1, PipeEvent.downloadCall u1,
          PipeEvent.allocCall u2, PipeEvent.downloadCall u2]⟩ := by
    simp [stepImage, hr2, lookupCache, hne, downloadImage, hnet2]
  have hloop : loopOut d env fp content [] fs0 =
      ⟨replaceFirst content (fmChars a1 u1)
          (fmChars a1 (relpathStr fp.parent (joinPath (d.images_dir ++
            [generateFilename d env.hash8 fs0 (extractTicketKey (stemOf fp.name)) u1 a1])))),
        1, 0, 1, [u2 ++ ": ".data ++ ("HTTP ".data ++ natDigits code)],
        [(u1, joinPath (d.images_dir ++
          [generateFilename d env.hash8 fs0 (extractTicketKey (stemOf fp.name)) u1 a1]))],
        joinPath (d.images_dir ++
          [generateFilename d env.hash8 fs0 (extractTicketKey (stemOf fp.name)) u1 a1]) :: fs0,
        [PipeEvent.allocCall u1, PipeEvent.downloadCall u1,
          PipeEvent.allocCall u2, PipeEvent.downloadCall u2]⟩ := by
    rw [loopOut, hfi, List.foldl_cons, h1, List.foldl_cons, h2, List.foldl_nil]
  -- the span facts from the scanner
  obtain ⟨-, ⟨t1, hsp1, hrest1, hca1, hcu1, hne1⟩, -⟩ :=
    scanAux_head content.length content 0 p1 a1 u1 [(p2, a2, u2)] (le_refl _) hscan
  rw [Nat.sub_zero] at hsp1
  obtain ⟨hp2, ⟨t2, hsp2, -, -, -, -⟩, -⟩ :=
    scanAux_head t1.length t1 (p1 + (fmChars a1 u1).length) p2 a2 u2 [] (le_refl _) hrest1.symm
  have hocc : firstOccIdx (fmChars a1 u1) content = some p1 :=
    scan_firstOcc content p1 a1 u1 [(p2, a2, u2)] hscan
  have hdropt1 : content.drop (p1 + (fmChars a1 u1).length) = t1 := by
    rw [← List.drop_drop, hsp1, List.drop_left]
  have hupd : replaceFirst content (fmChars a1 u1)
      (fmChars a1 (relpathStr fp.parent (joinPath (d.images_dir ++
        [generateFilename d env.hash8 fs0 (extractTicketKey (stemOf fp.name)) u1 a1])))) =
      content.take p1 ++
        fmChars a1 (relpathStr fp.parent (joinPath (d.images_dir ++
          [generateFilename d env.hash8 fs0 (extractTicketKey (stemOf fp.name)) u1 a1]))) ++
        content.drop (p1 + (fmChars a1 u1).length) :=
    replaceFirst_at content _ _ p1 hocc
  refine ⟨out, hout, ?_, ?_, ?_, ?_, ?_⟩
  · rw [hres, hloop]
  · rw [hres, hloop]
  · rw [hres, hloop]
  · rw [hcont, hloop, hupd]
  · rw [hcont, hloop, hupd, hdropt1]
    have hinf1 : fmChars a2 u2 <:+: t1 :=
      isInfix_of_drop t1 (fmChars a2 u2) t2 (p2 - (p1 + (fmChars a1 u1).length)) hsp2
    rw [List.append_assoc]
    exact isInfix_append_right _ _ _ (isInfix_append_right _ _ _ hinf1)

/-- C3 witness: the spec's own example document — `diagram.png` downloads,
`x.png` 404s; 1 downloaded, 1 failed, first markup rewritten, second intact. -/
theorem failed_reference_isolated_witness :
    (scanImages cContent2 = [(4, "diagram".data, cURL1), (77, "x".data, cURL2)] ∧
      isRemote cURL1 = true ∧ isRemote cURL2 = true ∧ cURL1 ≠ cURL2 ∧
      cEnv.net (requestAuth cDl (isJiraUrl cDl cURL1)) cURL1 = .ok [100] ∧
      streamOk MAX_IMAGE_SIZE 0 [100] = true ∧
      cEnv.net (requestAuth cDl (isJiraUrl cDl cURL2)) cURL2 = .httpError 404 ∧
      cEnv.writeFails (joinPath (cFP.parent ++ [cFP.name])) = false) ∧
    (∃ out, processFile cDl cEnv cFP (.ok cContent2) [] [] [] = Except.ok out ∧
      out.result.images_downloaded = 1 ∧
      out.result.images_failed = 1 ∧
      out.result.errors = [cURL2 ++ ": ".data ++ ("HTTP ".data ++ natDigits 404)] ∧
      out.content = cContent2.take 4 ++
        fmChars "diagram".data (relpathStr cFP.parent (joinPath (cDl.images_dir ++
          [generateFilename cDl cEnv.hash8 [] (extractTicketKey (stemOf cFP.name))
            cURL1 "diagram".data]))) ++
        cContent2.drop (4 + (fmChars "diagram".data cURL1).length) ∧
      fmChars "x".data cURL2 <:+: out.content) :=
  ⟨⟨by decide, by decide, by decide, by decide, by decide, by decide, by decide, by decide⟩,
    failed_reference_isolated cDl cEnv cFP cContent2 [] [] 4 77
      "diagram".data cURL1 "x".data cURL2 [100] 404
      (by decide) (by decide) (by decide) (by decide) (by decide) (by decide)
      (by decide) (by decide)⟩
